import Mathlib

/-!
Shallow embedding of the rate-limiting middleware in
`service/pkg/middleware/ratelimit` (files `ratelimit.go`, `config.go`,
`sliding_window.go`).

Go strings are modelled as `List Char`; Go `int`/`int64` and timestamps as
`Int` (no arithmetic here comes near 2^63, so overflow is immaterial);
`time.Time`/`time.Duration` are modelled at a single granularity per
component: seconds for the middleware and local limiter (`.Unix()` is then
the identity), milliseconds for the sliding-window script. Lua numbers in
the token-bucket script are modelled as rationals. The external Redis
store appears as explicit state (the sorted set's scores, the bucket
hash), and `time.Now()` as an explicit `now` argument; the several
`time.Now()` calls inside one request are one instant.
-/

set_option autoImplicit false

namespace RateLimit

/-- Helper for Go string literals. -/
def gs (s : String) : List Char := s.toList

/-- Go `strings.HasPrefix s p`: `p` is an initial run of `s`. -/
def startsWith : List Char → List Char → Bool
  | _, [] => true
  | [], _ :: _ => false
  | a :: s, b :: p => a = b && startsWith s p

/-- Go `strings.HasSuffix s t`: `t` is a final run of `s`. -/
def endsWith (s t : List Char) : Bool :=
  startsWith s.reverse t.reverse

/-- Go `strings.TrimSuffix s t`: drop a final `t` when present, else `s`. -/
def trimSuffix (s t : List Char) : List Char :=
  if endsWith s t then s.take (s.length - t.length) else s

/-- Go `strings.Contains s (string c)` for a one-character needle. -/
def containsChar (s : List Char) (c : Char) : Bool :=
  s.any (fun a => a = c)

/-- Go `strings.Split s "/"`-style splitting on one separator character;
empty fields are kept, `splitOn c [] = [[]]` as in Go. -/
def splitOn (c : Char) : List Char → List (List Char)
  | [] => [[]]
  | x :: xs =>
    let r := splitOn c xs
    if x = c then [] :: r
    else
      match r with
      | [] => [[x]]
      | h :: t => (x :: h) :: t

/-- The segment loop of `matchPath` (ratelimit.go lines 256-270): a pattern
segment beginning with `:` matches anything, any other segment must be
equal. Both lists have equal length when this is reached. -/
def matchParts : List (List Char) → List (List Char) → Bool
  | [], _ => true
  | _ :: _, [] => true
  | a :: as, b :: bs => (startsWith a [':'] || a = b) && matchParts as bs

/-- Function `matchPath` (ratelimit.go lines 241-273): exact equality, else trailing
wildcard `/ *` by string prefix, else colon-parameter segments. -/
def matchPath (pat path : List Char) : Bool :=
  if pat = path then true
  else if endsWith pat (gs "/*") then startsWith path (trimSuffix pat (gs "/*"))
  else if containsChar pat ':' then
    let patternParts := splitOn '/' pat
    let pathParts := splitOn '/' path
    if patternParts.length ≠ pathParts.length then false
    else matchParts patternParts pathParts
  else false

/-- Go `type KeyType string` (config.go line 103). -/
abbrev KeyType := List Char

/-- Constant `KeyTypeGlobal = "global"`. -/
def KeyTypeGlobal : KeyType := gs "global"

/-- Constant `KeyTypeUser = "user"`. -/
def KeyTypeUser : KeyType := gs "user"

/-- Constant `KeyTypeIP = "ip"`. -/
def KeyTypeIP : KeyType := gs "ip"

/-- Constant `KeyTypeAPI = "api"`. -/
def KeyTypeAPI : KeyType := gs "api"

/-- Function `BuildKey` (config.go lines 116-134): switch on the key type, default
branch included. -/
def BuildKey (keyType : KeyType) (identifier path : List Char) : List Char :=
  if keyType = KeyTypeGlobal then gs "ratelimit:" ++ gs "global"
  else if keyType = KeyTypeUser then
    if path ≠ [] then gs "ratelimit:" ++ gs "user:" ++ identifier ++ gs ":api:" ++ path
    else gs "ratelimit:" ++ gs "user:" ++ identifier
  else if keyType = KeyTypeIP then gs "ratelimit:" ++ gs "ip:" ++ identifier
  else if keyType = KeyTypeAPI then gs "ratelimit:" ++ gs "api:" ++ path
  else gs "ratelimit:" ++ gs "unknown:" ++ identifier

/-- Record `TierConfig` (config.go lines 30-44); durations in seconds. -/
structure TierConfig where
  RequestsPerSecond : Int
  RequestsPerMinute : Int
  Burst : Int
  Window : Int
  ConnectionsPerUser : Int
deriving DecidableEq, Repr

/-- Method `TierConfig.GetEffectiveLimit` (config.go lines 72-77). -/
def TierConfig.GetEffectiveLimit (t : TierConfig) : Int :=
  if t.RequestsPerSecond > 0 then t.RequestsPerSecond else t.RequestsPerMinute

/-- Method `TierConfig.GetEffectiveWindow` (config.go lines 80-88);
`time.Second = 1`, `time.Minute = 60` in the seconds model. -/
def TierConfig.GetEffectiveWindow (t : TierConfig) : Int :=
  if t.Window > 0 then t.Window
  else if t.RequestsPerSecond > 0 then 1
  else 60

/-- Record `Config` (config.go lines 9-27). The Go field `API` is a
`map[string]TierConfig`; it is modelled as an association list whose order
stands for one possible iteration order of the map — Go specifies no
order, so any permutation of the list denotes the same map value. -/
structure Config where
  Enabled : Bool
  Global : TierConfig
  User : TierConfig
  IP : TierConfig
  API : List (List Char × TierConfig)
  FallbackToLocal : Bool
deriving DecidableEq, Repr

/-- Function `DefaultConfig` (config.go lines 47-69). -/
def DefaultConfig : Config :=
  { Enabled := true
    Global := ⟨1000, 0, 100, 1, 0⟩
    User := ⟨0, 300, 50, 60, 0⟩
    IP := ⟨0, 60, 10, 60, 0⟩
    API := []
    FallbackToLocal := true }

/-- One record of the local fixed-window map (`localCounter`,
ratelimit.go lines 52-55). -/
structure LocalCounter where
  count : Int
  resetTime : Int
deriving DecidableEq, Repr

/-- Record `LocalLimiter` (ratelimit.go lines 46-50): its counters map, modelled
as an association list (first entry with the key wins, updates in place). -/
structure LocalLimiter where
  counters : List (List Char × LocalCounter)
deriving DecidableEq, Repr

/-- Function `NewLocalLimiter` (ratelimit.go lines 57-61). -/
def NewLocalLimiter : LocalLimiter := ⟨[]⟩

/-- Lookup in the counters map: Go `counter, exists := l.counters[key]`. -/
def lookupCounter : List (List Char × LocalCounter) → List Char → Option LocalCounter
  | [], _ => none
  | (k, v) :: rest, key => if k = key then some v else lookupCounter rest key

/-- Map store: Go `l.counters[key] = v` on the association-list model. -/
def setCounter : List (List Char × LocalCounter) → List Char → LocalCounter →
    List (List Char × LocalCounter)
  | [], key, v => [(key, v)]
  | (k, w) :: rest, key, v =>
    if k = key then (key, v) :: rest else (k, w) :: setCounter rest key v

/-- Method `LocalLimiter.Allow` (ratelimit.go lines 64-87); `now` is the
`time.Now()` of the call, in seconds, and `.Unix()` is the identity, so the
returned reset is `resetTime` itself. Returns the updated limiter and
`(allowed, remaining, reset)`. -/
def LocalLimiter.Allow (l : LocalLimiter) (key : List Char)
    (limit window now : Int) : LocalLimiter × Bool × Int × Int :=
  match lookupCounter l.counters key with
  | none =>
    (⟨setCounter l.counters key ⟨1, now + window⟩⟩, true, limit - 1, now + window)
  | some counter =>
    if now > counter.resetTime then
      (⟨setCounter l.counters key ⟨1, now + window⟩⟩, true, limit - 1, now + window)
    else if counter.count ≥ limit then
      (l, false, 0, counter.resetTime)
    else
      (⟨setCounter l.counters key ⟨counter.count + 1, counter.resetTime⟩⟩,
        true, limit - (counter.count + 1), counter.resetTime)

/-- One `LocalLimiter.Allow` call's arguments `(key, window, now)` for
running a sequence of calls at one fixed limit. -/
structure LocalCall where
  key : List Char
  window : Int
  now : Int

/-- Run a sequence of `LocalLimiter.Allow` calls with a fixed limit,
keeping only the final limiter state. -/
def localRun (limit : Int) : LocalLimiter → List LocalCall → LocalLimiter
  | l, [] => l
  | l, c :: cs => localRun limit (l.Allow c.key limit c.window c.now).1 cs

/-- Decidable form of the local-counter bound: every stored count is at
most `limit`. -/
def countsWithin (l : LocalLimiter) (limit : Int) : Bool :=
  l.counters.all (fun kv => kv.2.count ≤ limit)

/-- The decision triple a limiter call produces (`allowed`, `remaining`,
`reset` in epoch seconds). -/
structure Decision where
  allowed : Bool
  remaining : Int
  reset : Int
deriving DecidableEq, Repr

/-- The mutable part of `RateLimitMiddleware` (ratelimit.go lines 36-44):
`useLocal`, whether `slidingWindow` is non-nil, and the local limiter.
The Redis client itself is external; `hasSliding` records
`slidingWindow != nil` (set exactly when the client is non-nil). -/
structure MState where
  useLocal : Bool
  hasSliding : Bool
  localLimiter : LocalLimiter
deriving DecidableEq, Repr

/-- Function `New` (ratelimit.go lines 89-107): `hasRedis` stands for
`redisClient != nil`; a nil config is replaced by `DefaultConfig`, and
`slidingWindow` is built exactly when the client is non-nil. -/
def New (hasRedis : Bool) (config : Option Config) : Config × MState :=
  (config.getD DefaultConfig,
   { useLocal := !hasRedis, hasSliding := hasRedis, localLimiter := NewLocalLimiter })

/-- Outcome of one remote `SlidingWindowLimiter.Allow` round trip as seen
by `checkLimit`: `none` is an error from the store, `some (a, r, t)` the
returned triple. The store is external, so the outcome is an input. -/
abbrev StoreReply := Option (Bool × Int × Int)

/-- Method `RateLimitMiddleware.checkLimit` (ratelimit.go lines 187-218).
The guard `useLocal || m.slidingWindow == nil` routes to the local
limiter; on a store error the middleware either flips to local and
retries locally (`FallbackToLocal`), or fails open with
`(true, limit, now + window)`. The spawned recovery goroutine only ever
flips `useLocal` back and is not part of this per-call function. -/
def checkLimit (config : Config) (st : MState) (reply : StoreReply)
    (key : List Char) (tier : TierConfig) (now : Int) : Decision × MState :=
  let limit := tier.GetEffectiveLimit
  let window := tier.GetEffectiveWindow
  if st.useLocal || !st.hasSliding then
    let r := st.localLimiter.Allow key limit window now
    (⟨r.2.1, r.2.2.1, r.2.2.2⟩, { st with localLimiter := r.1 })
  else
    match reply with
    | some (allowed, remaining, resetTime) => (⟨allowed, remaining, resetTime⟩, st)
    | none =>
      if config.FallbackToLocal then
        let r := st.localLimiter.Allow key limit window now
        (⟨r.2.1, r.2.2.1, r.2.2.2⟩, { st with useLocal := true, localLimiter := r.1 })
      else
        (⟨true, limit, now + window⟩, st)

/-- The request data `determineTierAndKey` reads from the Gin context:
the routed pattern (`c.FullPath()`), the raw URL path, the optional
`user_id` context value (a non-string value behaves like an absent one and
is not modelled), and the client IP. -/
structure GoContext where
  fullPath : List Char
  urlPath : List Char
  userID : Option (List Char)
  clientIP : List Char

/-- The `for pattern, tier := range m.config.API` loop body: first entry
whose pattern matches wins. The list order is the map iteration order. -/
def findAPIMatch : List (List Char × TierConfig) → List Char →
    Option (List Char × TierConfig)
  | [], _ => none
  | (pat, tier) :: rest, path =>
    if matchPath pat path then some (pat, tier) else findAPIMatch rest path

/-- Method `RateLimitMiddleware.determineTierAndKey` (ratelimit.go lines
161-185). Note that it can never return a nil tier: the fallthrough is
always the IP tier. -/
def determineTierAndKey (config : Config) (c : GoContext) : TierConfig × List Char :=
  let path := if c.fullPath = [] then c.urlPath else c.fullPath
  match findAPIMatch config.API path with
  | some (_, tier) => (tier, BuildKey KeyTypeAPI [] path)
  | none =>
    match c.userID with
    | some uid =>
      if uid ≠ [] then (config.User, BuildKey KeyTypeUser uid [])
      else (config.IP, BuildKey KeyTypeIP c.clientIP [])
    | none => (config.IP, BuildKey KeyTypeIP c.clientIP [])

/-- Header name `X-RateLimit-Limit`. -/
def HeaderRateLimitLimit : List Char := gs "X-RateLimit-Limit"

/-- Header name `X-RateLimit-Remaining`. -/
def HeaderRateLimitRemaining : List Char := gs "X-RateLimit-Remaining"

/-- Header name `X-RateLimit-Reset`. -/
def HeaderRateLimitReset : List Char := gs "X-RateLimit-Reset"

/-- Header name `Retry-After`. -/
def HeaderRetryAfter : List Char := gs "Retry-After"

/-- The denial body's error string. -/
def RateLimitExceeded : List Char := gs "Rate limit exceeded"

/-- Observable outcome of one pass through the middleware handler:
headers set on the response (name, integer value as rendered by
`strconv`, which is injective), the abort (status, JSON body error
string, JSON body retry_after) when the request is rejected, and whether
`c.Next()` ran. -/
structure MWResult where
  headers : List (List Char × Int)
  aborted : Option (Nat × List Char × Int)
  forwarded : Bool
deriving DecidableEq, Repr

/-- Header emission and the denial branch of the handler (ratelimit.go
lines 130-158), given the resolved tier and the `checkLimit` outcome: the
three `X-RateLimit-*` headers are always set; when not allowed,
`retryAfter = resetTime - now` clamped to at least 1 is added as
`Retry-After` and the chain is aborted with status 429 and a JSON body
with fields `error` and `retry_after`. -/
def respond (tier : TierConfig) (r : Decision × MState) (now : Int) :
    MWResult × MState :=
  let d := r.1
  let hs := [(HeaderRateLimitLimit, tier.GetEffectiveLimit),
             (HeaderRateLimitRemaining, d.remaining),
             (HeaderRateLimitReset, d.reset)]
  if !d.allowed then
    let retryAfter := if d.reset - now < 1 then 1 else d.reset - now
    ({ headers := hs ++ [(HeaderRetryAfter, retryAfter)],
       aborted := some (429, RateLimitExceeded, retryAfter),
       forwarded := false }, r.2)
  else
    ({ headers := hs, aborted := none, forwarded := true }, r.2)

/-- The limited path of the handler (ratelimit.go lines 122-158):
resolve tier and key, check the limit, emit headers and the verdict. -/
def dispatch (config : Config) (st : MState) (c : GoContext)
    (reply : StoreReply) (now : Int) : MWResult × MState :=
  let tk := determineTierAndKey config c
  respond tk.1 (checkLimit config st reply tk.2 tk.1 now) now

/-- The handler returned by `RateLimitMiddleware.Middleware` (ratelimit.go
lines 110-159) on one request. `featureOn` is the collaborator call
`features.IsEnabled(features.FeatureRateLimiting)`; `reply` is the
store's answer should the sliding window be consulted; `now` is the
request instant in seconds. The `tierConfig == nil` guard of the source is
unreachable (`determineTierAndKey` is total) and so has no branch here. -/
def Middleware (featureOn : Bool) (config : Config) (st : MState)
    (c : GoContext) (reply : StoreReply) (now : Int) : MWResult × MState :=
  if !featureOn then ({ headers := [], aborted := none, forwarded := true }, st)
  else if !config.Enabled then ({ headers := [], aborted := none, forwarded := true }, st)
  else dispatch config st c reply now

/-- The Lua script of `SlidingWindowLimiter.Allow` (sliding_window.go
lines 31-60) acting on the sorted set stored at one key. Members are
`now .. ':' .. math.random()` and are assumed pairwise distinct (the spec's
uniqueness requirement), so only the multiset of scores matters and the
set is a list of scores. `ZREMRANGEBYSCORE key -inf window_start` removes
the scores `≤ now - window`; `ZCARD` is the length; an admitted call
`ZADD`s score `now`. Returns the remaining scores and
`(allowed, remaining)` as the script computes them (`PEXPIRE` is a TTL
effect outside this state). -/
def slidingScript (entries : List Int) (limit windowMs nowMs : Int) :
    List Int × Bool × Int :=
  let purged := entries.filter (fun s => nowMs - windowMs < s)
  let count : Int := purged.length
  if count < limit then (purged ++ [nowMs], true, limit - count - 1)
  else (purged, false, 0)

/-- Method `SlidingWindowLimiter.Allow` over a serialized sequence of calls on
one key, listed by their `time.Now()` milliseconds; returns each call's
`(allowed, remaining)` in order. -/
def slidingRun (limit windowMs : Int) : List Int → List Int → List (Bool × Int)
  | _, [] => []
  | entries, t :: ts =>
    let r := slidingScript entries limit windowMs t
    (r.2.1, r.2.2) :: slidingRun limit windowMs r.1 ts

/-- Number of admitted calls in a result sequence. -/
def countAllowed (rs : List (Bool × Int)) : Nat :=
  (rs.filter (fun r => r.1)).length

/-- The hash stored at one token-bucket key: fields `tokens` and
`last_update` (seconds, millisecond precision), as Lua numbers modelled
by rationals. -/
structure TokenBucket where
  tokens : ℚ
  lastUpdate : ℚ
deriving DecidableEq, Repr

/-- The Lua script of `TokenBucketLimiter.Allow` (sliding_window.go lines
109-131) on one key's hash: `none` when `HMGET` finds no fields (then
`tokens = burst`, `last_update = now`). Returns the persisted bucket and
`(allowed, remaining)`; `EXPIRE` is a TTL effect outside this state. -/
def tokenScript (bucket : Option TokenBucket) (rate : ℚ) (burst : Int)
    (now : ℚ) : TokenBucket × Bool × Int :=
  let tokens0 : ℚ := match bucket with | none => (burst : ℚ) | some b => b.tokens
  let lastUpdate : ℚ := match bucket with | none => now | some b => b.lastUpdate
  let elapsed := now - lastUpdate
  let tokens1 := min (burst : ℚ) (tokens0 + elapsed * rate)
  if 1 ≤ tokens1 then (⟨tokens1 - 1, now⟩, true, ⌊tokens1 - 1⌋)
  else (⟨tokens1, now⟩, false, 0)

/-- A tier whose effective limit is zero (both request fields zero). -/
def zeroTier : TierConfig := ⟨0, 0, 0, 0, 0⟩

/-- A configuration registering the zero-limit tier for path `/z`. -/
def cfgZ : Config :=
  { Enabled := true, Global := ⟨1, 0, 0, 0, 0⟩, User := ⟨0, 1, 0, 0, 0⟩,
    IP := ⟨0, 1, 0, 0, 0⟩, API := [(gs "/z", zeroTier)], FallbackToLocal := true }

/-- An unauthenticated request routed to `/z`. -/
def ctxZ : GoContext := ⟨gs "/z", gs "/z", none, gs "1.2.3.4"⟩

/-- Tier registered under the wildcard pattern in the overlap example. -/
def tierA : TierConfig := ⟨1, 0, 0, 0, 0⟩

/-- Tier registered under the parameter pattern in the overlap example. -/
def tierB : TierConfig := ⟨2, 0, 0, 0, 0⟩

/-- One iteration order of the API map `{/a/* ↦ tierA, /a/:x/b ↦ tierB}`. -/
def cfgOrderA : Config :=
  { Enabled := true, Global := ⟨1, 0, 0, 0, 0⟩, User := ⟨0, 1, 0, 0, 0⟩,
    IP := ⟨0, 1, 0, 0, 0⟩, API := [(gs "/a/*", tierA), (gs "/a/:x/b", tierB)],
    FallbackToLocal := true }

/-- The other iteration order of the same API map. -/
def cfgOrderB : Config :=
  { cfgOrderA with API := [(gs "/a/:x/b", tierB), (gs "/a/*", tierA)] }

/-- A request routed to `/a/c/b`, matched by both patterns above. -/
def ctxAB : GoContext := ⟨gs "/a/c/b", gs "/a/c/b", none, gs "1.2.3.4"⟩

/-- The default configuration with `FallbackToLocal` switched off. -/
def cfgNF : Config := { DefaultConfig with FallbackToLocal := false }

/-!
Theorems. Each claim's theorem carries the claim id in its doc comment.
-/

/-- C2 counterexample: the trailing-wildcard pattern `/api/v1/edge/*` DOES
match the bare path `/api/v1/edge` — `matchPath` tests the string prefix
`/api/v1/edge` with `strings.HasPrefix`, which the bare path satisfies by
equality — contradicting the claim that it does not. -/
theorem matchPath_wildcard_accepts_bare_path :
    matchPath (gs "/api/v1/edge/*") (gs "/api/v1/edge") = true := by decide

/-- C2 (amended): for a trailing-wildcard pattern, `matchPath` matches
exactly the paths carrying the string prefix before `/ *` — including the
bare path `/api/v1/edge` itself; in particular `/api/v1/edge/device/x`
matches. -/
theorem matchPath_wildcard_is_string_prefix :
    (∀ path, matchPath (gs "/api/v1/edge/*") path =
      startsWith path (gs "/api/v1/edge")) ∧
    matchPath (gs "/api/v1/edge/*") (gs "/api/v1/edge/device/x") = true ∧
    matchPath (gs "/api/v1/edge/*") (gs "/api/v1/edge") = true := by
  refine ⟨?_, by decide, by decide⟩
  intro path
  by_cases h : gs "/api/v1/edge/*" = path
  · subst h; decide
  · have he : endsWith (gs "/api/v1/edge/*") (gs "/*") = true := by decide
    have ht : trimSuffix (gs "/api/v1/edge/*") (gs "/*") = gs "/api/v1/edge" := by decide
    simp [matchPath, h, he, ht]

/-- C5: `determineTierAndKey` iterates the Go map `m.config.API` with
`range`, whose order is unspecified, and returns the first matching
pattern. With `/a/*` and `/a/:x/b` both registered and both matching the
request `/a/c/b`, the two iteration orders of the same map (they are
permutations of one another) select different tiers, and the order that
yields the wildcard first selects it — contradicting the required
deterministic choice of `/a/:x/b`. -/
theorem determineTierAndKey_depends_on_map_order :
    cfgOrderA.API.Perm cfgOrderB.API ∧
    matchPath (gs "/a/*") (gs "/a/c/b") = true ∧
    matchPath (gs "/a/:x/b") (gs "/a/c/b") = true ∧
    (determineTierAndKey cfgOrderA ctxAB).1 = tierA ∧
    (determineTierAndKey cfgOrderB ctxAB).1 = tierB ∧
    tierA ≠ tierB := by
  refine ⟨?_, by decide, by decide, by decide, by decide, by decide⟩
  exact List.Perm.swap (gs "/a/:x/b", tierB) (gs "/a/*", tierA) []

/-- The key built for the `global` tier starts, after the shared
`ratelimit:` namespace, with `g`. -/
theorem buildKey_tag_global (identifier path : List Char) :
    ((BuildKey KeyTypeGlobal identifier path).drop 10).head? = some 'g' := rfl

/-- The key built for the `user` tier starts, after the shared
`ratelimit:` namespace, with `u`, with or without a path. -/
theorem buildKey_tag_user (identifier path : List Char) :
    ((BuildKey KeyTypeUser identifier path).drop 10).head? = some 'u' := by
  cases path with
  | nil => rfl
  | cons a q => rfl

/-- The key built for the `ip` tier starts, after the shared `ratelimit:`
namespace, with `i`. -/
theorem buildKey_tag_ip (identifier path : List Char) :
    ((BuildKey KeyTypeIP identifier path).drop 10).head? = some 'i' := rfl

/-- The key built for the `api` tier starts, after the shared `ratelimit:`
namespace, with `a`. -/
theorem buildKey_tag_api (identifier path : List Char) :
    ((BuildKey KeyTypeAPI identifier path).drop 10).head? = some 'a' := rfl

/-- C8: `BuildKey` never collides across distinct tiers: for any two
distinct key types among global, user, ip and api, and any identifiers
and paths, the built keys differ (they already differ at the character
following the `ratelimit:` namespace). -/
theorem buildKey_tiers_never_collide (kt₁ kt₂ : KeyType)
    (h₁ : kt₁ = KeyTypeGlobal ∨ kt₁ = KeyTypeUser ∨ kt₁ = KeyTypeIP ∨ kt₁ = KeyTypeAPI)
    (h₂ : kt₂ = KeyTypeGlobal ∨ kt₂ = KeyTypeUser ∨ kt₂ = KeyTypeIP ∨ kt₂ = KeyTypeAPI)
    (hne : kt₁ ≠ kt₂) :
    ∀ id₁ p₁ id₂ p₂, BuildKey kt₁ id₁ p₁ ≠ BuildKey kt₂ id₂ p₂ := by
  intro id₁ p₁ id₂ p₂ heq
  have htag := congrArg (fun l => (l.drop 10).head?) heq
  simp only at htag
  rcases h₁ with h | h | h | h <;> subst h <;>
    rcases h₂ with g | g | g | g <;> subst g <;>
    first
      | exact hne rfl
      | (simp only [buildKey_tag_global, buildKey_tag_user, buildKey_tag_ip,
          buildKey_tag_api] at htag
         exact absurd htag (by decide))

/-- C8 witness: the user key and the ip key for the same identifier
differ. -/
theorem buildKey_tiers_never_collide_witness :
    BuildKey KeyTypeUser (gs "u42") [] ≠ BuildKey KeyTypeIP (gs "u42") [] :=
  buildKey_tiers_never_collide KeyTypeUser KeyTypeIP
    (Or.inr (Or.inl rfl)) (Or.inr (Or.inr (Or.inl rfl))) (by decide)
    (gs "u42") [] (gs "u42") []

/-- When every call time is within `windowMs` of every entry and of every
other call time, no entry is ever purged, so the number of admissions over
the whole run is bounded by the remaining capacity `limit - entries`. -/
theorem slidingRun_count_le (limit windowMs : Int) :
    ∀ (ts entries : List Int),
      (∀ s ∈ entries, ∀ t ∈ ts, t - s < windowMs) →
      (∀ t ∈ ts, ∀ u ∈ ts, u - t < windowMs) →
      countAllowed (slidingRun limit windowMs entries ts) ≤ (limit - entries.length).toNat := by
  intro ts
  induction ts with
  | nil => intro entries _ _; simp [slidingRun, countAllowed]
  | cons t ts ih =>
    intro entries hst hts
    have hpurge : entries.filter (fun s => decide (t - windowMs < s)) = entries := by
      apply List.filter_eq_self.mpr
      intro s hs
      have := hst s hs t (List.mem_cons_self t ts)
      simpa using by omega
    have hts' : ∀ a ∈ ts, ∀ b ∈ ts, b - a < windowMs := fun a ha b hb =>
      hts a (List.mem_cons_of_mem t ha) b (List.mem_cons_of_mem t hb)
    by_cases hc : (entries.length : Int) < limit
    · have hst' : ∀ s ∈ entries ++ [t], ∀ u ∈ ts, u - s < windowMs := by
        intro s hs u hu
        rcases List.mem_append.mp hs with h | h
        · exact hst s h u (List.mem_cons_of_mem t hu)
        · rcases List.mem_singleton.mp h with rfl
          exact hts s (List.mem_cons_self s ts) u (List.mem_cons_of_mem s hu)
      have hrec := ih (entries ++ [t]) hst' hts'
      simp only [slidingRun, slidingScript, hpurge, if_pos hc, countAllowed,
        List.filter_cons, List.length_append, List.length_singleton, if_true,
        List.length_cons] at hrec ⊢
      omega
    · have hrec := ih entries (fun s hs u hu => hst s hs u (List.mem_cons_of_mem t hu)) hts'
      simp only [slidingRun, slidingScript, hpurge, if_neg hc, countAllowed,
        List.filter_cons] at hrec ⊢
      simpa using hrec

/-- C1: over any serialized sequence of sliding-window `Allow` calls on
one key whose call times span less than the window, at most `limit` calls
are admitted; and every single call admits exactly when the post-purge
cardinality is below the limit and then reports
`remaining = limit - count - 1`. -/
theorem sliding_window_limit_respected (limit windowMs : Int) (ts : List Int)
    (hL : 0 < limit)
    (hspan : ∀ t ∈ ts, ∀ u ∈ ts, u - t < windowMs) :
    (countAllowed (slidingRun limit windowMs [] ts) : Int) ≤ limit ∧
    (∀ entries nowMs,
      ((slidingScript entries limit windowMs nowMs).2.1 = true ↔
        ((entries.filter (fun s => nowMs - windowMs < s)).length : Int) < limit) ∧
      (((entries.filter (fun s => nowMs - windowMs < s)).length : Int) < limit →
        (slidingScript entries limit windowMs nowMs).2.2 =
          limit - (entries.filter (fun s => nowMs - windowMs < s)).length - 1)) := by
  constructor
  · have h := slidingRun_count_le limit windowMs ts [] (by intro s hs; cases hs) hspan
    omega
  · intro entries nowMs
    constructor
    · constructor
      · intro h
        by_contra hc
        simp [slidingScript, if_neg hc] at h
      · intro h
        simp [slidingScript, if_pos h]
    · intro h
      simp [slidingScript, if_pos h]

/-- C1 witness: two calls at times 0 and 5 under limit 2, window 60. -/
theorem sliding_window_limit_respected_witness :
    (countAllowed (slidingRun 2 60 [] [0, 5]) : Int) ≤ 2 :=
  (sliding_window_limit_respected 2 60 [0, 5] (by decide) (by decide)).1

/-- Storing a value in the counters map preserves a per-record property
that the stored value itself satisfies. -/
theorem setCounter_all (P : LocalCounter → Prop) :
    ∀ (m : List (List Char × LocalCounter)) (key : List Char) (v : LocalCounter),
      (∀ kv ∈ m, P kv.2) → P v → ∀ kv ∈ setCounter m key v, P kv.2 := by
  intro m
  induction m with
  | nil =>
    intro key v _ hv kv hkv
    simp [setCounter] at hkv
    simp [hkv, hv]
  | cons e rest ih =>
    intro key v hm hv kv hkv
    simp only [setCounter] at hkv
    by_cases he : e.1 = key
    · rw [if_pos he] at hkv
      rcases List.mem_cons.mp hkv with h | h
      · simp [h, hv]
      · exact hm kv (List.mem_cons_of_mem e h)
    · rw [if_neg he] at hkv
      rcases List.mem_cons.mp hkv with h | h
      · exact hm kv (h ▸ List.mem_cons_self e rest)
      · exact ih key v (fun x hx => hm x (List.mem_cons_of_mem e hx)) hv kv h

/-- One `LocalLimiter.Allow` call preserves the bound `count ≤ limit` on
every stored record, provided `1 ≤ limit`. -/
theorem localAllow_preserves_bound (limit : Int) (hL : 1 ≤ limit)
    (l : LocalLimiter) (key : List Char) (window now : Int)
    (hall : ∀ kv ∈ l.counters, kv.2.count ≤ limit) :
    ∀ kv ∈ (l.Allow key limit window now).1.counters, kv.2.count ≤ limit := by
  unfold LocalLimiter.Allow
  cases hlook : lookupCounter l.counters key with
  | none =>
    simp only
    exact setCounter_all (fun c => c.count ≤ limit) l.counters key ⟨1, now + window⟩
      hall (by simpa using hL)
  | some counter =>
    simp only
    by_cases hexp : now > counter.resetTime
    · rw [if_pos hexp]
      exact setCounter_all (fun c => c.count ≤ limit) l.counters key ⟨1, now + window⟩
        hall (by simpa using hL)
    · rw [if_neg hexp]
      by_cases hge : counter.count ≥ limit
      · rw [if_pos hge]
        exact hall
      · rw [if_neg hge]
        refine setCounter_all (fun c => c.count ≤ limit) l.counters key
          ⟨counter.count + 1, counter.resetTime⟩ hall (by simp; omega)

/-- C7: `LocalLimiter.Allow` implements the fixed-window rule exactly —
fresh or expired keys store `(1, now + window)` and admit with
`remaining = limit - 1` and reset `now + window`; a full window
(`count ≥ limit`) denies with `remaining = 0` at the stored reset; an
unfilled window increments and admits with `remaining = limit - count` —
and consequently, for `limit ≥ 1`, every count stored after any sequence
of calls at that limit is at most `limit`. -/
theorem localLimiter_fixed_window (limit : Int) (hL : 1 ≤ limit) :
    (∀ (l : LocalLimiter) key window now,
      lookupCounter l.counters key = none →
      l.Allow key limit window now =
        (⟨setCounter l.counters key ⟨1, now + window⟩⟩, true, limit - 1, now + window)) ∧
    (∀ (l : LocalLimiter) key window now c,
      lookupCounter l.counters key = some c → now > c.resetTime →
      l.Allow key limit window now =
        (⟨setCounter l.counters key ⟨1, now + window⟩⟩, true, limit - 1, now + window)) ∧
    (∀ (l : LocalLimiter) key window now c,
      lookupCounter l.counters key = some c → ¬ now > c.resetTime → c.count ≥ limit →
      l.Allow key limit window now = (l, false, 0, c.resetTime)) ∧
    (∀ (l : LocalLimiter) key window now c,
      lookupCounter l.counters key = some c → ¬ now > c.resetTime → ¬ c.count ≥ limit →
      l.Allow key limit window now =
        (⟨setCounter l.counters key ⟨c.count + 1, c.resetTime⟩⟩, true,
          limit - (c.count + 1), c.resetTime)) ∧
    (∀ calls, countsWithin (localRun limit NewLocalLimiter calls) limit = true) := by
  refine ⟨?_, ?_, ?_, ?_, ?_⟩
  · intro l key window now h
    simp [LocalLimiter.Allow, h]
  · intro l key window now c h hexp
    simp [LocalLimiter.Allow, h, hexp]
  · intro l key window now c h hexp hge
    simp [LocalLimiter.Allow, h, hexp, hge]
  · intro l key window now c h hexp hge
    simp [LocalLimiter.Allow, h, hexp, hge]
  · intro calls
    have main : ∀ (cs : List LocalCall) (l : LocalLimiter),
        (∀ kv ∈ l.counters, kv.2.count ≤ limit) →
        ∀ kv ∈ (localRun limit l cs).counters, kv.2.count ≤ limit := by
      intro cs
      induction cs with
      | nil => intro l hl; exact hl
      | cons c cs ih =>
        intro l hl
        exact ih _ (localAllow_preserves_bound limit hL l c.key c.window c.now hl)
    have h := main calls NewLocalLimiter (by simp [NewLocalLimiter])
    simp only [countsWithin, List.all_eq_true]
    intro kv hkv
    simpa using h kv hkv

/-- C7 witness: three calls on one key at limit 2 leave every stored
count at most 2. -/
theorem localLimiter_fixed_window_witness :
    countsWithin (localRun 2 NewLocalLimiter
      [⟨gs "k", 60, 0⟩, ⟨gs "k", 60, 1⟩, ⟨gs "k", 60, 2⟩]) 2 = true :=
  (localLimiter_fixed_window 2 (by decide)).2.2.2.2
    [⟨gs "k", 60, 0⟩, ⟨gs "k", 60, 1⟩, ⟨gs "k", 60, 2⟩]

/-- C4: when the sliding-window store call errors and `FallbackToLocal`
is false, `checkLimit` fails open — it returns
`(allowed = true, remaining = limit, reset = now + window)` and leaves
the state untouched — and hence the middleware forwards such a request
with no abort, so a store error never reaches the client as anything but
(here not even) a 429. -/
theorem checkLimit_store_error_fails_open (config : Config) (st : MState)
    (key : List Char) (tier : TierConfig) (now : Int)
    (hfb : config.FallbackToLocal = false)
    (hloc : st.useLocal = false) (hsw : st.hasSliding = true) :
    checkLimit config st none key tier now =
      (⟨true, tier.GetEffectiveLimit, now + tier.GetEffectiveWindow⟩, st) ∧
    (∀ featureOn c,
      ((Middleware featureOn config st c none now).1).aborted = none ∧
      ((Middleware featureOn config st c none now).1).forwarded = true) := by
  have hck : ∀ key' tier', checkLimit config st none key' tier' now =
      (⟨true, tier'.GetEffectiveLimit, now + tier'.GetEffectiveWindow⟩, st) := by
    intro key' tier'
    simp [checkLimit, hfb, hloc, hsw]
  refine ⟨hck key tier, ?_⟩
  intro featureOn c
  cases featureOn with
  | false => simp [Middleware]
  | true =>
    by_cases he : config.Enabled
    · simp [Middleware, he, dispatch, respond, hck]
    · simp [Middleware, he]

/-- C4 witness: with the default tiers, fallback off and a healthy-mode
state, a store error yields an admit with `remaining = 60` (the IP tier
limit) and `reset = 100 + 60`. -/
theorem checkLimit_store_error_fails_open_witness :
    checkLimit cfgNF (New true none).2 none (gs "k") DefaultConfig.IP 100 =
      (⟨true, 60, 160⟩, (New true none).2) :=
  (checkLimit_store_error_fails_open cfgNF (New true none).2 (gs "k")
    DefaultConfig.IP 100 rfl rfl rfl).1

/-- C10: a middleware built over a nil Redis client starts with
`useLocal = true` and no sliding-window limiter, and whenever the
sliding-window limiter is absent, `checkLimit` answers from the local
limiter for any store reply (so the reply — and in particular the absent
limiter — is never consulted), preserving `hasSliding = false` and
`useLocal` across the call. -/
theorem nil_redis_always_local (config : Option Config) :
    ((New false config).2.useLocal = true ∧ (New false config).2.hasSliding = false) ∧
    (∀ cfg (st : MState) reply key (tier : TierConfig) now,
      st.hasSliding = false →
      checkLimit cfg st reply key tier now =
        (let r := st.localLimiter.Allow key tier.GetEffectiveLimit
          tier.GetEffectiveWindow now
         (⟨r.2.1, r.2.2.1, r.2.2.2⟩, { st with localLimiter := r.1 })) ∧
      (checkLimit cfg st reply key tier now).2.hasSliding = false ∧
      (checkLimit cfg st reply key tier now).2.useLocal = st.useLocal) := by
  refine ⟨⟨rfl, rfl⟩, ?_⟩
  intro cfg st reply key tier now hsw
  have hck : checkLimit cfg st reply key tier now =
      (let r := st.localLimiter.Allow key tier.GetEffectiveLimit
        tier.GetEffectiveWindow now
       (⟨r.2.1, r.2.2.1, r.2.2.2⟩, { st with localLimiter := r.1 })) := by
    simp [checkLimit, hsw]
  constructor
  · exact hck
  constructor
  · rw [hck]
    simp [hsw]
  · rw [hck]

/-- C10 witness: a checkLimit call on the nil-client state is local and
keeps `useLocal = true`. -/
theorem nil_redis_always_local_witness :
    (checkLimit DefaultConfig (New false none).2 none (gs "k")
      DefaultConfig.IP 5).2.useLocal = true :=
  Eq.trans
    (((nil_redis_always_local none).2 DefaultConfig (New false none).2 none
      (gs "k") DefaultConfig.IP 5 rfl).2.2)
    ((nil_redis_always_local none).1.1)

/-- C6: with the feature on and the config enabled, the dispatcher is
exactly resolve-check-respond, and every response `respond` produces
carries the three `X-RateLimit-*` headers with the tier limit and the
decision's remaining and reset; a denial additionally carries
`Retry-After = max 1 (reset - now) ≥ 1`, aborts with status 429 and the
JSON body fields `error = "Rate limit exceeded"` and
`retry_after = Retry-After`, and does not forward; an admit forwards with
no abort. -/
theorem middleware_headers_and_denial (config : Config) (st : MState)
    (c : GoContext) (reply : StoreReply) (now : Int)
    (he : config.Enabled = true) :
    (Middleware true config st c reply now =
      respond (determineTierAndKey config c).1
        (checkLimit config st reply (determineTierAndKey config c).2
          (determineTierAndKey config c).1 now) now) ∧
    (∀ (tier : TierConfig) (r : Decision × MState),
      (HeaderRateLimitLimit, tier.GetEffectiveLimit) ∈ ((respond tier r now).1).headers ∧
      (HeaderRateLimitRemaining, r.1.remaining) ∈ ((respond tier r now).1).headers ∧
      (HeaderRateLimitReset, r.1.reset) ∈ ((respond tier r now).1).headers ∧
      (r.1.allowed = false →
        (HeaderRetryAfter, max 1 (r.1.reset - now)) ∈ ((respond tier r now).1).headers ∧
        1 ≤ max 1 (r.1.reset - now) ∧
        ((respond tier r now).1).aborted =
          some (429, RateLimitExceeded, max 1 (r.1.reset - now)) ∧
        ((respond tier r now).1).forwarded = false) ∧
      (r.1.allowed = true →
        ((respond tier r now).1).aborted = none ∧
        ((respond tier r now).1).forwarded = true)) := by
  constructor
  · simp [Middleware, he, dispatch]
  · intro tier r
    obtain ⟨d, st2⟩ := r
    have hra : (if d.reset - now < 1 then 1 else d.reset - now) =
        max 1 (d.reset - now) := by
      rcases le_or_lt 1 (d.reset - now) with h | h
      · rw [if_neg (by omega), max_eq_right h]
      · rw [if_pos h, max_eq_left (by omega)]
    cases ha : d.allowed with
    | false =>
      refine ⟨by simp [respond, ha], by simp [respond, ha], by simp [respond, ha],
        fun _ => ⟨by simp [respond, ha, hra], le_max_left 1 _,
          by simp [respond, ha, hra], by simp [respond, ha]⟩,
        fun htrue => ?_⟩
      simp [ha] at htrue
    | true =>
      refine ⟨by simp [respond, ha], by simp [respond, ha], by simp [respond, ha],
        fun hfalse => ?_, fun _ => ⟨by simp [respond, ha], by simp [respond, ha]⟩⟩
      simp [ha] at hfalse

/-- C6 witness: a concrete denial decision at reset 50 and now 0 aborts
with 429, the error body and retry-after 50. -/
theorem middleware_headers_and_denial_witness :
    ((respond DefaultConfig.IP (⟨false, 0, 50⟩, (New false none).2) 0).1).aborted =
      some (429, RateLimitExceeded, max 1 (50 - 0)) :=
  (((middleware_headers_and_denial DefaultConfig (New false none).2 ctxZ none 0
    rfl).2 DefaultConfig.IP (⟨false, 0, 50⟩, (New false none).2)).2.2.2.1 rfl).2.2.1

/-- C3 counterexample: the dispatcher has no zero-limit check. Under the
configuration `cfgZ`, the request `/z` resolves to `zeroTier`, whose
effective limit is zero; with a nil Redis client the second request is
denied with a 429 abort (retry-after 60) instead of being forwarded
unlimited. -/
theorem zero_limit_tier_is_denied :
    zeroTier.GetEffectiveLimit = 0 ∧
    (determineTierAndKey cfgZ ctxZ).1 = zeroTier ∧
    ((Middleware true cfgZ (Middleware true cfgZ (New false (some cfgZ)).2 ctxZ none 0).2
      ctxZ none 0).1).aborted = some (429, RateLimitExceeded, 60) ∧
    ((Middleware true cfgZ (Middleware true cfgZ (New false (some cfgZ)).2 ctxZ none 0).2
      ctxZ none 0).1).forwarded = false := by decide

/-- C3 (amended): a tier with zero effective limit is not treated as "no
tier applies" — the dispatcher calls the limiter with limit 0; on the
local path, once the key holds a live record the request is denied and a
429 abort is produced. -/
theorem zero_limit_tier_enforced (config : Config) (st : MState) (c : GoContext)
    (reply : StoreReply) (now : Int) (cnt : LocalCounter)
    (he : config.Enabled = true)
    (hlim : (determineTierAndKey config c).1.GetEffectiveLimit = 0)
    (hloc : st.useLocal = true)
    (hcnt : lookupCounter st.localLimiter.counters
      (determineTierAndKey config c).2 = some cnt)
    (hvalid : ¬ now > cnt.resetTime) (hnn : 0 ≤ cnt.count) :
    ((Middleware true config st c reply now).1).aborted =
      some (429, RateLimitExceeded,
        if cnt.resetTime - now < 1 then 1 else cnt.resetTime - now) ∧
    ((Middleware true config st c reply now).1).forwarded = false := by
  obtain ⟨ul, hsl, ll⟩ := st
  simp only [MState.useLocal] at hloc
  subst hloc
  have hallow : ll.Allow (determineTierAndKey config c).2
      (determineTierAndKey config c).1.GetEffectiveLimit
      (determineTierAndKey config c).1.GetEffectiveWindow now =
      (ll, false, 0, cnt.resetTime) := by
    rw [hlim]
    simp [LocalLimiter.Allow, hcnt, hvalid, hnn]
  have hck : checkLimit config ⟨true, hsl, ll⟩ reply (determineTierAndKey config c).2
      (determineTierAndKey config c).1 now =
      (⟨false, 0, cnt.resetTime⟩, ⟨true, hsl, ll⟩) := by
    simp [checkLimit, hallow]
  simp [Middleware, he, dispatch, hck, respond]

/-- C3 witness for the amended claim: a live record on the api key of
`/z` at count 1 makes the next request abort with 429 and retry-after
55. -/
theorem zero_limit_tier_enforced_witness :
    ((Middleware true cfgZ
      ⟨true, false, ⟨[(gs "ratelimit:api:/z", ⟨1, 60⟩)]⟩⟩ ctxZ none 5).1).aborted =
      some (429, RateLimitExceeded, 55) ∧
    ((Middleware true cfgZ
      ⟨true, false, ⟨[(gs "ratelimit:api:/z", ⟨1, 60⟩)]⟩⟩ ctxZ none 5).1).forwarded
      = false :=
  zero_limit_tier_enforced cfgZ
    ⟨true, false, ⟨[(gs "ratelimit:api:/z", ⟨1, 60⟩)]⟩⟩ ctxZ none 5 ⟨1, 60⟩
    rfl (by decide) rfl (by decide) (by decide) (by decide)

/-- Rational arithmetic helper: capping at `b` and spending one token
stays below `b`. -/
theorem min_sub_one_le (b x : ℚ) : min b x - 1 ≤ b := by
  have h := min_le_left b x
  linarith

/-- C9 counterexample: a bucket holding zero tokens with burst 0 (its
default content for a burst-0 key) satisfies the claim's premise
`r * dt = 1 ≥ 1` for `rate = 1`, `dt = 1`, yet the call at time `0 + 1`
is denied — refill caps at `min(burst, ...) = 0 < 1` — so the claim's
unconditional admission fails. -/
theorem token_bucket_zero_burst_denies :
    (1 : ℚ) * 1 ≥ 1 ∧
    (tokenScript (some ⟨0, 0⟩) 1 0 (0 + 1)).2.1 = false := by
  constructor
  · norm_num
  · simp [tokenScript, min_def]
    norm_num

/-- C9 (amended): for `burst ≥ 1`, a call on a bucket holding zero tokens
after `dt` seconds of idleness with `rate * dt ≥ 1` is admitted with
`remaining = ⌊min(burst, rate * dt) - 1⌋`; and for every call whatsoever
the persisted token count never exceeds `burst`. -/
theorem token_bucket_refill (rate dt t0 : ℚ) (burst : Int)
    (hb : 1 ≤ burst) (hrd : 1 ≤ rate * dt) :
    (tokenScript (some ⟨0, t0⟩) rate burst (t0 + dt)).2.1 = true ∧
    (tokenScript (some ⟨0, t0⟩) rate burst (t0 + dt)).2.2 =
      ⌊min (burst : ℚ) (rate * dt) - 1⌋ ∧
    (∀ bucket now, ((tokenScript bucket rate burst now).1).tokens ≤ (burst : ℚ)) := by
  have hb' : (1 : ℚ) ≤ (burst : ℚ) := by exact_mod_cast hb
  have harg : (0 : ℚ) + (t0 + dt - t0) * rate = rate * dt := by ring
  have hmin : (1 : ℚ) ≤ min (burst : ℚ) ((0 : ℚ) + (t0 + dt - t0) * rate) := by
    rw [harg]
    exact le_min hb' hrd
  refine ⟨?_, ?_, ?_⟩
  · simp only [tokenScript]
    rw [if_pos hmin]
  · simp only [tokenScript]
    rw [if_pos hmin, harg]
  · intro bucket now
    simp only [tokenScript]
    split
    · exact min_sub_one_le _ _
    · exact min_le_left _ _

/-- C9 witness: rate 1, burst 1, two seconds of idleness from empty. -/
theorem token_bucket_refill_witness :
    (tokenScript (some ⟨0, 0⟩) 1 1 (0 + 2)).2.1 = true :=
  (token_bucket_refill 1 2 0 1 (by norm_num) (by norm_num)).1

end RateLimit
